import Mathlib

/-!
# Verification of the kisekifs data-path core

Shallow embedding of the kisekifs client's data-path components, translated
from the Rust sources:

* `src/components/vfs/src/writer.rs` — `WriterPattern`, `locate_chunk`,
  `SliceWriter`, `FileWriter::write`;
* `src/components/storage/src/pool/disk_pool.rs` — `DiskPagePool`;
* `src/src/vfs/storage/reader.rs` — `FileReader::read`;
* `src/src/meta/engine.rs` / `src/components/types/src/attr.rs` — `access`,
  `InodeAttr::access_perm`;
* `src/src/meta/mod.rs` — `PreInternalNodes::add_prefix`.

Concurrent code is embedded with its sequential (quiescent-point) semantics:
atomics become plain record fields, a CAS that runs without interference
succeeds, and blocking waits are events that complete only when enabled.
Definitions from crates that are not part of the source tree
(`kiseki_common`, `kiseki_storage::slice_buffer`) are modelled from the
specification and marked as such.
-/

namespace Kiseki

/-! ## WriterPattern (src/components/vfs/src/writer.rs, lines 124-154) -/

/-- `WriterPattern`: the sequential/random write-pattern estimator.
`is_seq_count : AtomicIsize` and `last_write_stop_offset : AtomicUsize`
become an `Int` and a `Nat`. -/
structure WriterPattern where
  is_seq_count : Int
  last_write_stop_offset : Nat
deriving Repr, DecidableEq

/-- `WriterPattern::LIMIT = 5`. -/
def WriterPattern.LIMIT : Int := 5

/-- `Default for WriterPattern`: both atomics start at zero. -/
def WriterPattern.init : WriterPattern := ⟨0, 0⟩

/-- `WriterPattern::monitor_write_at`: swap `offset + size` into
`last_write_stop_offset`, then bump the counter towards +LIMIT when the
write starts where the previous one stopped, towards -LIMIT otherwise. -/
def WriterPattern.monitor_write_at (p : WriterPattern) (offset size : Nat) : WriterPattern :=
  let last_offset := p.last_write_stop_offset
  let count := p.is_seq_count
  let new_count :=
    if last_offset = offset then
      -- seq: add weight on the seq side.
      if count < WriterPattern.LIMIT then count + 1 else count
    else
      -- add weight on the random side.
      if -WriterPattern.LIMIT < count then count - 1 else count
  { is_seq_count := new_count, last_write_stop_offset := offset + size }

/-- `WriterPattern::is_seq`: `is_seq_count >= 0`. -/
def WriterPattern.is_seq (p : WriterPattern) : Bool := decide (0 ≤ p.is_seq_count)

/-- Replay a list of `(offset, size)` calls against a pattern state. -/
def WriterPattern.replay (p : WriterPattern) (calls : List (Nat × Nat)) : WriterPattern :=
  calls.foldl (fun q c => q.monitor_write_at c.1 c.2) p

/-! ## locate_chunk (src/components/vfs/src/writer.rs, lines 808-852) -/

/-- Modelled from the spec: `cal_chunk_idx` lives in the `kiseki_common`
crate, which is not part of the source tree; the spec fixes
`chunk_idx = offset / CHUNK_SIZE`. -/
def cal_chunk_idx (offset chunk_size : Nat) : Nat := offset / chunk_size

/-- Modelled from the spec: `cal_chunk_offset` lives in the `kiseki_common`
crate, which is not part of the source tree; the chunk-local offset is
`offset % CHUNK_SIZE`. -/
def cal_chunk_offset (offset chunk_size : Nat) : Nat := offset % chunk_size

/-- `ChunkWriteCtx`: one per-chunk piece of a write request. -/
structure ChunkWriteCtx where
  file_offset : Nat
  chunk_idx : Nat
  chunk_offset : Nat
  need_write_len : Nat
  buf_start_at : Nat
deriving Repr, DecidableEq

/-- The loop body of `locate_chunk`: the Rust iterates
`(start_chunk_idx..=end_chunk_idx)` carrying `chunk_pos`, `buf_start_at`
and `left` as mutable state; here the remaining iteration count and the
current index are explicit. -/
def locateChunkGo (chunk_size offset : Nat) :
    Nat → Nat → Nat → Nat → Nat → List ChunkWriteCtx
  | 0, _idx, _chunk_pos, _buf_start_at, _left => []
  | k + 1, idx, chunk_pos, buf_start_at, left =>
    let max_can_write := min (chunk_size - chunk_pos) left
    { file_offset := offset + buf_start_at
      chunk_idx := idx
      chunk_offset := chunk_pos
      need_write_len := max_can_write
      buf_start_at := buf_start_at } ::
      locateChunkGo chunk_size offset k (idx + 1)
        (cal_chunk_offset (chunk_pos + max_can_write) chunk_size)
        (buf_start_at + max_can_write) (left - max_can_write)

/-- `locate_chunk(chunk_size, offset, expect_write_len)`. -/
def locate_chunk (chunk_size offset expect_write_len : Nat) : List ChunkWriteCtx :=
  let expected_write_len := expect_write_len
  let start_chunk_idx := cal_chunk_idx offset chunk_size
  let end_chunk_idx := cal_chunk_idx (offset + expected_write_len - 1) chunk_size
  locateChunkGo chunk_size offset (end_chunk_idx + 1 - start_chunk_idx) start_chunk_idx
    (cal_chunk_offset offset chunk_size) 0 expected_write_len

/-- `chunksCover base l s e` checks that the `(file_offset, need_write_len)`
ranges of `l` are nonempty, consecutive, start at `s`, end at `e`, and that
each `buf_start_at` is the running sum of the preceding lengths (i.e. the
distance from `base`). -/
def chunksCover (base : Nat) : List ChunkWriteCtx → Nat → Nat → Bool
  | [], s, e => s == e
  | c :: rest, s, e =>
    (c.file_offset == s) && (c.buf_start_at == s - base) && (c.need_write_len != 0) &&
      chunksCover base rest (s + c.need_write_len) e

/-! ## SliceBuffer, SliceWriter, FileWriter (src/components/vfs/src/writer.rs)

Sequential semantics of the write path.  `CHUNK_SIZE` and `BLOCK_SIZE` come
from the `kiseki_common` crate, which is not in the source tree, so they are
parameters `chunk_size` / `block_size` throughout; the random-write pool
free-ratio test `kiseki_storage::get_pool_free_ratio() > 0.7` reads a
process-wide value outside the source tree and is the parameter `early`. -/

/-- `FlushReq` (src/components/vfs/src/writer.rs lines 501-512); slice
writers are identified by their `_internal_seq`, and the `remain`/`notify`
rendezvous of `ManualFlush` is dropped from the sequential model. -/
inductive FlushReqM where
  | flushBulk (seq : Nat) (offset : Nat)
  | flushFull (seq : Nat)
  | manualFlush (seqs : List Nat)
deriving Repr, DecidableEq

/-- Modelled from the spec: `SliceBuffer` lives in
`kiseki_storage::slice_buffer`, which is not in the source tree.  The spec
keeps two observables, `length` (highest written offset within the slice)
and `flushed_length` (prefix already uploaded). -/
structure SliceBufferM where
  length : Nat
  flushed_length : Nat
deriving Repr, DecidableEq

/-- `SliceBuffer::new`: empty buffer. -/
def SliceBufferM.new : SliceBufferM := ⟨0, 0⟩

/-- Modelled from the spec: `SliceBuffer::write_at(offset, data) -> written`
writes all of `data` and updates `length = max(length, offset + written)`. -/
def SliceBufferM.write_at (buf : SliceBufferM) (offset data_len : Nat) :
    Nat × SliceBufferM :=
  (data_len, { buf with length := max buf.length (offset + data_len) })

/-- `SliceWriter` (src/components/vfs/src/writer.rs lines 602-627); the
atomics `frozen` / `done` become booleans. -/
structure SliceWriterM where
  internal_seq : Nat
  offset_of_chunk : Nat
  slice_buffer : SliceBufferM
  frozen : Bool
  done : Bool
deriving Repr, DecidableEq

/-- `SliceWriter::new(seq, offset_of_chunk, ..)`. -/
def SliceWriterM.new (seq offset_of_chunk : Nat) : SliceWriterM :=
  ⟨seq, offset_of_chunk, SliceBufferM.new, false, false⟩

/-- `SliceWriter::write_at`: delegate to the buffer. -/
def SliceWriterM.write_at (sw : SliceWriterM) (offset data_len : Nat) :
    Nat × SliceWriterM :=
  let (written, buf) := sw.slice_buffer.write_at offset data_len
  (written, { sw with slice_buffer := buf })

/-- `SliceWriter::freeze`: single-winner compare-and-set `false → true` on
`frozen`; returns whether this caller won. -/
def SliceWriterM.freeze (sw : SliceWriterM) : Bool × SliceWriterM :=
  if sw.frozen then (false, sw) else (true, { sw with frozen := true })

/-- `SliceWriter::make_full_flush_in_advance`: freeze, and on success emit a
`FlushFull` request. -/
def SliceWriterM.make_full_flush_in_advance (sw : SliceWriterM) :
    Option FlushReqM × SliceWriterM :=
  let (won, sw) := sw.freeze
  if won then (some (FlushReqM.flushFull sw.internal_seq), sw) else (none, sw)

/-- `SliceWriter::make_background_flush_req` (lines 716-738): `None` when
frozen or done; freeze and emit `FlushFull` when the buffer holds a full
chunk; emit `FlushBulk{offset = length}` when more than a block is
unflushed; otherwise `None`. -/
def SliceWriterM.make_background_flush_req (chunk_size block_size : Nat)
    (sw : SliceWriterM) : Option FlushReqM × SliceWriterM :=
  if sw.frozen then (none, sw)
  else if sw.done then (none, sw)
  else
    let length := sw.slice_buffer.length
    if length = chunk_size then
      let (won, sw) := sw.freeze
      if won then (some (FlushReqM.flushFull sw.internal_seq), sw)
      else (none, sw)  -- someone else has frozen it.
    else if length - sw.slice_buffer.flushed_length > block_size then
      (some (FlushReqM.flushBulk sw.internal_seq length), sw)
    else (none, sw)

/-- `FileWriter` (src/components/vfs/src/writer.rs lines 159-192): the
`DashMap<ChunkIndex, BTreeMap<InternalSliceSeq, Arc<SliceWriter>>>` becomes
an association list `chunk_idx ↦ slices` with each inner list ordered by
ascending `internal_seq`; the flush channel becomes the list of requests
sent so far; the sonyflake generator becomes a counter. -/
structure FileWriterM where
  length : Nat
  pattern : WriterPattern
  slice_writers : List (Nat × List SliceWriterM)
  flush_queue : List FlushReqM
  next_seq : Nat
deriving Repr, DecidableEq

/-- Insert-or-replace in the chunk map. -/
def updateAssoc (m : List (Nat × List SliceWriterM)) (k : Nat)
    (v : List SliceWriterM) : List (Nat × List SliceWriterM) :=
  match m with
  | [] => [(k, v)]
  | (k', v') :: rest =>
    if k' = k then (k, v) :: rest else (k', v') :: updateAssoc rest k v

/-- The scan in `find_slice_writer` over one chunk's slice writers in
reverse (newest first, `cw.iter().rev().enumerate()`): a slice is the
target iff it is not frozen and
`offset_of_chunk + flushed ≤ chunk_offset ≤ offset_of_chunk + length`;
otherwise, when `idx >= 3` and the pool free ratio is high, the slice gets
a speculative full flush.  Returns the selected slice's seq, the updated
(still reversed) slice list, and the emitted requests. -/
def findTargetRev (early : Bool) (chunk_offset : Nat) :
    List SliceWriterM → Nat → Option Nat × List SliceWriterM × List FlushReqM
  | [], _idx => (none, [], [])
  | sw :: rest, idx =>
    if sw.frozen = false ∧ sw.offset_of_chunk + sw.slice_buffer.flushed_length ≤ chunk_offset
        ∧ chunk_offset ≤ sw.offset_of_chunk + sw.slice_buffer.length then
      (some sw.internal_seq, sw :: rest, [])
    else
      let (req, sw') :=
        if 3 ≤ idx ∧ early = true then sw.make_full_flush_in_advance else (none, sw)
      let (sel, rest', reqs) := findTargetRev early chunk_offset rest (idx + 1)
      (sel, sw' :: rest', req.toList ++ reqs)

/-- The per-`ChunkWriteCtx` body of `find_slice_writer` (lines 298-362):
scan the chunk's slice writers, and when none matches allocate a fresh
`SliceWriter` at `offset_of_chunk = chunk_offset` and insert it.  Returns
the seq of the slice writer the write will target. -/
def FileWriterM.process_ctx (early : Bool) (fw : FileWriterM) (l : ChunkWriteCtx) :
    Nat × FileWriterM :=
  let slices0 := (fw.slice_writers.lookup l.chunk_idx).getD []
  let r := findTargetRev early l.chunk_offset slices0.reverse 0
  let slices := r.2.1.reverse
  let fw' := { fw with flush_queue := fw.flush_queue ++ r.2.2 }
  match r.1 with
  | some seq =>
    (seq, { fw' with slice_writers := updateAssoc fw'.slice_writers l.chunk_idx slices })
  | none =>
    let sw := SliceWriterM.new fw'.next_seq l.chunk_offset
    (fw'.next_seq,
      { fw' with
          slice_writers := updateAssoc fw'.slice_writers l.chunk_idx (slices ++ [sw])
          next_seq := fw'.next_seq + 1 })

/-- The per-slice write of `FileWriter::write` step 2:
`sw.write_at(l.chunk_offset - sw.offset_of_chunk, data)` on the targeted
slice writer (in the sequential model the freeze race does not fire). -/
def FileWriterM.write_slice (fw : FileWriterM) (seq : Nat) (l : ChunkWriteCtx) :
    Nat × FileWriterM :=
  let slices := (fw.slice_writers.lookup l.chunk_idx).getD []
  match slices.find? (fun sw => sw.internal_seq == seq) with
  | none => (0, fw)
  | some sw =>
    let r := sw.write_at (l.chunk_offset - sw.offset_of_chunk) l.need_write_len
    (r.1,
      { fw with
          slice_writers := updateAssoc fw.slice_writers l.chunk_idx
            (slices.map (fun t => if t.internal_seq == seq then r.2 else t)) })

/-- `FileWriter::write` step 3: ask a touched slice writer for a background
flush request and forward it to the flusher channel. -/
def FileWriterM.enqueue_background_req (chunk_size block_size : Nat)
    (fw : FileWriterM) (seq chunk_idx : Nat) : FileWriterM :=
  let slices := (fw.slice_writers.lookup chunk_idx).getD []
  match slices.find? (fun sw => sw.internal_seq == seq) with
  | none => fw
  | some sw =>
    let r := sw.make_background_flush_req chunk_size block_size
    let fw' :=
      { fw with
          slice_writers := updateAssoc fw.slice_writers chunk_idx
            (slices.map (fun t => if t.internal_seq == seq then r.2 else t)) }
    match r.1 with
    | some req => { fw' with flush_queue := fw'.flush_queue ++ [req] }
    | none => fw'

/-- `FileWriter::write(offset, data)` (lines 213-296), sequential
semantics: early-return on empty data, pattern update, chunk location,
per-chunk slice writes, background flush requests, and the final
compare-and-swap of the length to `max(old, offset + write_len)`. -/
def FileWriterM.write (chunk_size block_size : Nat) (early : Bool)
    (fw : FileWriterM) (offset data_len : Nat) : Nat × FileWriterM :=
  let expected_write_len := data_len
  if expected_write_len = 0 then (0, fw)
  else
    let fw1 := { fw with pattern := fw.pattern.monitor_write_at offset expected_write_len }
    let r1 :=
      (locate_chunk chunk_size offset expected_write_len).foldl
        (fun (acc : List (Nat × ChunkWriteCtx) × FileWriterM) l =>
          (acc.1 ++ [((acc.2.process_ctx early l).1, l)], (acc.2.process_ctx early l).2))
        ([], fw1)
    let pairs := r1.1
    let r2 :=
      pairs.foldl
        (fun (acc : Nat × FileWriterM) p =>
          (acc.1 + (acc.2.write_slice p.1 p.2).1, (acc.2.write_slice p.1 p.2).2))
        (0, r1.2)
    let write_len := r2.1
    let fw4 :=
      pairs.foldl
        (fun s p => s.enqueue_background_req chunk_size block_size p.1 p.2.chunk_idx)
        r2.2
    let old_len := fw4.length
    let may_new_len := offset + write_len
    (write_len, if may_new_len > old_len then { fw4 with length := may_new_len } else fw4)

/-- Replay a list of `(offset, data_len)` writes against a file writer. -/
def FileWriterM.replayWrites (chunk_size block_size : Nat) (early : Bool)
    (fw : FileWriterM) (writes : List (Nat × Nat)) : FileWriterM :=
  writes.foldl (fun s p => (FileWriterM.write chunk_size block_size early s p.1 p.2).2) fw

/-! ## FileReader::read entry (src/src/vfs/storage/reader.rs, lines 105-136)

The body of `read` past the guard and the clamp calls `make_requests` /
`do_read` (the latter is `todo!()` in the source); the embedding records
which of the three disjoint paths the guard/clamp prefix takes. -/

/-- Outcome of the guard/clamp prefix of `FileReader::read`. -/
inductive ReadStep where
  /-- `ensure!` fired: the error built from `ThisFileReaderIsClosingSnafu`. -/
  | errReaderClosing (ino fh : Nat)
  /-- `return Ok(0)`: the clamp path; no request is built, no `SliceReader`
  is created, the object store is never contacted. -/
  | retZero
  /-- fall through to `make_requests` / `do_read` with the clamped range. -/
  | proceed (block : Nat × Nat)
deriving Repr, DecidableEq

/-- `make_range(offset, expected_read_len, len)`. -/
def make_range (offset expected_read_len len : Nat) : Nat × Nat :=
  let right := offset + expected_read_len
  if right > len then (offset, len) else (offset, right)

/-- The guard and clamp of `FileReader::read(offset, dst)`.
The source reads:
`ensure!(self.closing.load(Ordering::Acquire), ThisFileReaderIsClosingSnafu {..})`
— snafu's `ensure!(cond, err)` returns the error when `cond` is FALSE, so
the error is produced exactly when `closing` is `false`.  Then
`if offset >= flen || expected_read_len == 0 { return Ok(0); }`. -/
def FileReader.read_step (closing : Bool) (ino fh flen offset dst_len : Nat) : ReadStep :=
  if ¬ closing then ReadStep.errReaderClosing ino fh
  else if offset ≥ flen ∨ dst_len = 0 then ReadStep.retZero
  else ReadStep.proceed (make_range offset dst_len flen)

/-! ## DiskPagePool (src/components/storage/src/pool/disk_pool.rs)

Sequential (quiescent-point) semantics of the pool: the `ArrayQueue<u64>`
of free page ids becomes a FIFO list, the set of live `FilePage` tokens a
multiset of page ids. -/

/-- Quiescent state of a `DiskPagePool`: the free queue (front = next pop)
plus the ids held by outstanding `FilePage` tokens. -/
structure PoolState where
  freeQueue : List Nat
  outstanding : Multiset Nat
deriving DecidableEq

/-- `DiskPagePool::new`: push all `page_id`s `0..cnt` onto the queue;
no token is outstanding. -/
def PoolState.init (total_page_cnt : Nat) : PoolState :=
  ⟨List.range total_page_cnt, 0⟩

/-- The pool events visible at a quiescent point. -/
inductive PoolOp where
  /-- `try_acquire_page`: pop, or return `None` leaving the state unchanged. -/
  | tryAcquirePage
  /-- a completed `acquire_page().await`; while the queue is empty the call
  is still parked on the notifier and holds no token, so it is a no-op. -/
  | acquirePage
  /-- `Drop for FilePage`: push the id back and wake one waiter.  A drop of
  a token that is not outstanding cannot occur and is a no-op. -/
  | dropPage (page_id : Nat)
deriving Repr, DecidableEq

/-- One pool transition. -/
def poolStep (st : PoolState) : PoolOp → PoolState
  | PoolOp.tryAcquirePage =>
    match st.freeQueue with
    | [] => st
    | id :: rest => ⟨rest, id ::ₘ st.outstanding⟩
  | PoolOp.acquirePage =>
    match st.freeQueue with
    | [] => st
    | id :: rest => ⟨rest, id ::ₘ st.outstanding⟩
  | PoolOp.dropPage id =>
    if id ∈ st.outstanding then ⟨st.freeQueue ++ [id], st.outstanding.erase id⟩
    else st

/-- Replay a sequence of pool events. -/
def poolRun (total_page_cnt : Nat) (ops : List PoolOp) : PoolState :=
  ops.foldl poolStep (PoolState.init total_page_cnt)

/-- `remain_page_cnt`: the length of the queue. -/
def PoolState.remain_page_cnt (st : PoolState) : Nat := st.freeQueue.length

/-! ## access / access_perm (src/src/meta/engine.rs lines 349-373,
src/components/types/src/attr.rs lines 173-197) -/

/-- The fields of `InodeAttr` consulted by `access_perm`
(`perm : u16`, `uid : u32`, `gid : u32`); the remaining fields of the
source structure (times, kind, nlink, length, …) play no part in
permission checking. -/
structure InodeAttrM where
  perm : Nat
  uid : Nat
  gid : Nat
deriving Repr, DecidableEq

/-- `InodeAttr::access_perm(uid, gids)`.  The `as u8` casts become
`% 256`. -/
def InodeAttrM.access_perm (attr : InodeAttrM) (uid : Nat) (gids : List Nat) : Nat :=
  if uid = 0 then 0x7
  else
    let perm := attr.perm
    if uid = attr.uid then ((perm >>> 6) % 256) &&& 7
    else if gids.any (fun gid => gid == attr.gid) then ((perm >>> 3) % 256) &&& 7
    else (perm % 256) &&& 7

/-- The fields of `MetaContext` consulted by `access`. -/
structure MetaContextM where
  uid : Nat
  gid_list : List Nat
  check_permission : Bool
deriving Repr, DecidableEq

/-- Result of `access`: `Ok(())` or `MetaError::ErrBadAccessPerm`. -/
inductive AccessResult where
  | ok
  | errBadAccessPerm (inode want grant : Nat)
deriving Repr, DecidableEq

/-- `access(ctx, inode, attr, perm_mask)`. -/
def access (ctx : MetaContextM) (inode : Nat) (attr : InodeAttrM) (perm_mask : Nat) :
    AccessResult :=
  if ctx.uid = 0 then AccessResult.ok
  else if !ctx.check_permission then AccessResult.ok
  else
    let perm := attr.access_perm ctx.uid ctx.gid_list
    if perm &&& perm_mask ≠ perm_mask then
      AccessResult.errBadAccessPerm inode perm_mask perm
    else AccessResult.ok

/-! ## PreInternalNodes::add_prefix (src/src/meta/mod.rs lines 25-110) -/

def LOG_INODE_NAME : String := ".accesslog"
def CONTROL_INODE_NAME : String := ".control"
def STATS_INODE_NAME : String := ".stats"
def CONFIG_INODE_NAME : String := ".config"
def TRASH_INODE_NAME : String := ".trash"

/-- The names installed by `PreInternalNodes::new` (in insertion order). -/
def pre_internal_node_names : List String :=
  [LOG_INODE_NAME, CONTROL_INODE_NAME, STATS_INODE_NAME, CONFIG_INODE_NAME,
    TRASH_INODE_NAME]

/-- The renaming applied to each node by `add_prefix`:
`n.0.name = format!(".kfs{}", n.0.name)`. -/
def add_prefix_name (name : String) : String := ".kfs" ++ name

/-- `PreInternalNodes::add_prefix`, acting on the map's name column. -/
def add_prefix (names : List String) : List String := names.map add_prefix_name

/-! ## Theorems -/

/-- `(x % 256) &&& 7 = x &&& 7`: the `as u8` truncation before a `& 7`
mask is the identity. -/
lemma mod256_and7 (x : Nat) : x % 256 &&& 7 = x &&& 7 := by
  have h : (256 : Nat) = 2 ^ 8 := by norm_num
  rw [h, ← Nat.and_pow_two_sub_one_eq_mod, Nat.and_assoc]
  congr 1

/-- C1: the spec says `read` fails with `ReaderClosing` exactly when the
`closing` flag is set; the source's `ensure!(self.closing.load(..), ..)`
errors when `closing` is NOT set, so the polarity is inverted: a freshly
opened (non-closing) reader fails every read with `ReaderClosing`, while a
closing reader proceeds. -/
theorem read_closing_guard_inverted :
    FileReader.read_step false 1 1 10 0 1 = ReadStep.errReaderClosing 1 1 ∧
      FileReader.read_step true 1 1 10 0 1 ≠ ReadStep.errReaderClosing 1 1 := by
  decide

/-- C7: the claim says `read(offset ≥ flen)` (or an empty `dst`) returns 0
without contacting the object store; on a reader whose `closing` flag is
not set (the normal open state) the inverted guard fires first and `read`
returns the `ReaderClosing` error instead of 0.  The clamp itself behaves
as claimed once the guard passes (third conjunct). -/
theorem read_eof_clamp_unreachable :
    FileReader.read_step false 1 1 10 10 4 = ReadStep.errReaderClosing 1 1 ∧
      FileReader.read_step false 1 1 10 10 4 ≠ ReadStep.retZero ∧
      FileReader.read_step true 1 1 10 10 4 = ReadStep.retZero ∧
      FileReader.read_step true 1 1 10 3 0 = ReadStep.retZero := by
  decide

/-- C8 counterexample: `add_prefix` turns `.config` into `.kfs.config`
(the whole original name, dot included, is kept after the `.kfs` prefix),
not `.kfsconfig` as the claim states. -/
theorem add_prefix_config_counterexample :
    add_prefix_name CONFIG_INODE_NAME = ".kfs.config" ∧
      add_prefix_name CONFIG_INODE_NAME ≠ ".kfsconfig" := by
  constructor
  · rfl
  · decide

/-- C8 (amended): `add_prefix` renames every reserved internal node by
prepending `.kfs` to its existing name (keeping the leading dot), so
`.config` becomes `.kfs.config`. -/
theorem add_prefix_spec :
    add_prefix pre_internal_node_names =
      [".kfs.accesslog", ".kfs.control", ".kfs.stats", ".kfs.config", ".kfs.trash"] ∧
      ∀ name ∈ pre_internal_node_names, add_prefix_name name = ".kfs" ++ name := by
  constructor
  · rfl
  · intro name _
    rfl

/-- C9: `access` grants unconditionally (ignoring the attribute) when
`uid == 0` or permission checking is off; otherwise it grants exactly when
the granted bits (owner / group / other, per `access_perm`) cover
`perm_mask`, and errors with `ErrBadAccessPerm` otherwise. -/
theorem access_spec (ctx : MetaContextM) (inode : Nat) (attr : InodeAttrM)
    (perm_mask : Nat) :
    ((ctx.uid = 0 ∨ ctx.check_permission = false) →
        access ctx inode attr perm_mask = AccessResult.ok ∧
        ∀ attr' : InodeAttrM,
          access ctx inode attr perm_mask = access ctx inode attr' perm_mask) ∧
    (ctx.uid ≠ 0 → ctx.check_permission = true →
        attr.access_perm ctx.uid ctx.gid_list =
          (if ctx.uid = attr.uid then (attr.perm >>> 6) &&& 7
           else if attr.gid ∈ ctx.gid_list then (attr.perm >>> 3) &&& 7
           else attr.perm &&& 7) ∧
        (attr.access_perm ctx.uid ctx.gid_list &&& perm_mask = perm_mask →
          access ctx inode attr perm_mask = AccessResult.ok) ∧
        (attr.access_perm ctx.uid ctx.gid_list &&& perm_mask ≠ perm_mask →
          access ctx inode attr perm_mask =
            AccessResult.errBadAccessPerm inode perm_mask
              (attr.access_perm ctx.uid ctx.gid_list))) := by
  constructor
  · rintro (h | h)
    · exact ⟨by simp [access, h], fun attr' => by simp [access, h]⟩
    · by_cases h0 : ctx.uid = 0
      · exact ⟨by simp [access, h0], fun attr' => by simp [access, h0]⟩
      · exact ⟨by simp [access, h0, h], fun attr' => by simp [access, h0, h]⟩
  · intro h0 hc
    have hperm : attr.access_perm ctx.uid ctx.gid_list =
        (if ctx.uid = attr.uid then (attr.perm >>> 6) &&& 7
         else if attr.gid ∈ ctx.gid_list then (attr.perm >>> 3) &&& 7
         else attr.perm &&& 7) := by
      by_cases hu : ctx.uid = attr.uid
      · have h0' : attr.uid ≠ 0 := hu ▸ h0
        simp [InodeAttrM.access_perm, h0, h0', hu, mod256_and7]
      · by_cases hg : attr.gid ∈ ctx.gid_list
        · have hany : ctx.gid_list.any (fun gid => gid == attr.gid) = true :=
            List.any_eq_true.mpr ⟨attr.gid, hg, by simp⟩
          simp [InodeAttrM.access_perm, h0, hu, hany, hg, mod256_and7]
        · have hany : ctx.gid_list.any (fun gid => gid == attr.gid) = false := by
            rw [List.any_eq_false]
            intro x hx
            simp only [beq_iff_eq]
            intro hEq
            exact hg (hEq ▸ hx)
          simp [InodeAttrM.access_perm, h0, hu, hany, hg, mod256_and7]
    refine ⟨hperm, ?_, ?_⟩
    · intro hmask
      simp [access, h0, hc, hmask]
    · intro hmask
      simp [access, h0, hc, hmask]

/-- C9 witness: root is always granted. -/
theorem access_spec_witness :
    access ⟨0, [], true⟩ 2 ⟨420, 1, 1⟩ 4 = AccessResult.ok :=
  ((access_spec ⟨0, [], true⟩ 2 ⟨420, 1, 1⟩ 4).1 (Or.inl rfl)).1

/-- C10: a write with empty data returns `Ok(0)` and leaves the whole
`FileWriter` state (pattern counter, last stop offset, slice writers,
flush queue, stored length) unchanged. -/
theorem write_empty_data_frame (chunk_size block_size : Nat) (early : Bool)
    (fw : FileWriterM) (offset : Nat) :
    FileWriterM.write chunk_size block_size early fw offset 0 = (0, fw) := rfl

/-- One `monitor_write_at` call keeps the counter inside `[-LIMIT, LIMIT]`. -/
lemma monitor_write_at_bounds {p : WriterPattern}
    (h1 : -WriterPattern.LIMIT ≤ p.is_seq_count)
    (h2 : p.is_seq_count ≤ WriterPattern.LIMIT) (offset size : Nat) :
    -WriterPattern.LIMIT ≤ (p.monitor_write_at offset size).is_seq_count ∧
      (p.monitor_write_at offset size).is_seq_count ≤ WriterPattern.LIMIT := by
  simp only [WriterPattern.monitor_write_at, WriterPattern.LIMIT] at *
  constructor <;> split <;> split <;> omega

/-- Replaying any call list from a state inside the band stays inside. -/
lemma replay_bounds :
    ∀ (calls : List (Nat × Nat)) (p : WriterPattern),
      -WriterPattern.LIMIT ≤ p.is_seq_count → p.is_seq_count ≤ WriterPattern.LIMIT →
      -WriterPattern.LIMIT ≤ (p.replay calls).is_seq_count ∧
        (p.replay calls).is_seq_count ≤ WriterPattern.LIMIT
  | [], p, h1, h2 => by simpa [WriterPattern.replay] using ⟨h1, h2⟩
  | c :: rest, p, h1, h2 => by
    have h := monitor_write_at_bounds h1 h2 c.1 c.2
    simpa [WriterPattern.replay] using replay_bounds rest _ h.1 h.2

/-- C6: from the initial state, any sequence of `monitor_write_at` calls
keeps `is_seq_count` within `[-5, +5]`; each call saturate-increments on a
sequential hit and saturate-decrements otherwise, then stores
`offset + size` as the new last stop offset; `is_seq()` holds exactly when
the counter is nonnegative. -/
theorem writer_pattern_spec :
    (∀ calls : List (Nat × Nat),
        -5 ≤ (WriterPattern.init.replay calls).is_seq_count ∧
          (WriterPattern.init.replay calls).is_seq_count ≤ 5) ∧
    (∀ (p : WriterPattern) (offset size : Nat),
        (p.monitor_write_at offset size).last_write_stop_offset = offset + size) ∧
    (∀ (p : WriterPattern) (offset size : Nat),
        -5 ≤ p.is_seq_count → p.is_seq_count ≤ 5 →
        (p.monitor_write_at offset size).is_seq_count =
          if p.last_write_stop_offset = offset then min (p.is_seq_count + 1) 5
          else max (p.is_seq_count - 1) (-5)) ∧
    (∀ p : WriterPattern, p.is_seq = true ↔ 0 ≤ p.is_seq_count) := by
  refine ⟨?_, ?_, ?_, ?_⟩
  · intro calls
    exact replay_bounds calls WriterPattern.init (by decide) (by decide)
  · intro p offset size
    rfl
  · intro p offset size h1 h2
    simp only [WriterPattern.monitor_write_at, WriterPattern.LIMIT]
    split <;> split <;> omega
  · intro p
    simp [WriterPattern.is_seq]

/-- C6 witness: a sequential hit at a counter of 3 bumps it to 4. -/
theorem writer_pattern_spec_witness :
    (WriterPattern.monitor_write_at ⟨3, 7⟩ 7 2).is_seq_count =
      if (⟨3, 7⟩ : WriterPattern).last_write_stop_offset = 7 then
        min ((⟨3, 7⟩ : WriterPattern).is_seq_count + 1) 5
      else max ((⟨3, 7⟩ : WriterPattern).is_seq_count - 1) (-5) :=
  writer_pattern_spec.2.2.1 ⟨3, 7⟩ 7 2 (by decide) (by decide)

/-- C5: for a slice writer whose buffer has length `L` and flushed length
`F` with `F ≤ L ≤ chunk_size`, `make_background_flush_req` returns `None`
when frozen or done; freezes and returns `FlushFull` when `L = chunk_size`;
returns `FlushBulk{offset = L}` when `L ≠ chunk_size` and
`L - F > block_size`; and `None` in all remaining cases. -/
theorem make_background_flush_req_spec (chunk_size block_size : Nat)
    (sw : SliceWriterM)
    (hFL : sw.slice_buffer.flushed_length ≤ sw.slice_buffer.length)
    (hLC : sw.slice_buffer.length ≤ chunk_size) :
    (sw.frozen = true →
        sw.make_background_flush_req chunk_size block_size = (none, sw)) ∧
    (sw.frozen = false → sw.done = true →
        sw.make_background_flush_req chunk_size block_size = (none, sw)) ∧
    (sw.frozen = false → sw.done = false → sw.slice_buffer.length = chunk_size →
        sw.make_background_flush_req chunk_size block_size =
          (some (FlushReqM.flushFull sw.internal_seq), { sw with frozen := true })) ∧
    (sw.frozen = false → sw.done = false → sw.slice_buffer.length ≠ chunk_size →
        block_size < sw.slice_buffer.length - sw.slice_buffer.flushed_length →
        sw.make_background_flush_req chunk_size block_size =
          (some (FlushReqM.flushBulk sw.internal_seq sw.slice_buffer.length), sw)) ∧
    (sw.frozen = false → sw.done = false → sw.slice_buffer.length ≠ chunk_size →
        sw.slice_buffer.length - sw.slice_buffer.flushed_length ≤ block_size →
        sw.make_background_flush_req chunk_size block_size = (none, sw)) := by
  refine ⟨?_, ?_, ?_, ?_, ?_⟩
  · intro hf
    simp [SliceWriterM.make_background_flush_req, hf]
  · intro hf hd
    simp [SliceWriterM.make_background_flush_req, hf, hd]
  · intro hf hd hL
    simp [SliceWriterM.make_background_flush_req, SliceWriterM.freeze, hf, hd, hL]
  · intro hf hd hL hB
    simp [SliceWriterM.make_background_flush_req, hf, hd, hL, hB]
  · intro hf hd hL hB
    simp [SliceWriterM.make_background_flush_req, hf, hd, hL, Nat.not_lt.mpr hB]

/-- C5 witness: an unflushed span larger than a block yields `FlushBulk`
at the current length. -/
theorem make_background_flush_req_spec_witness :
    SliceWriterM.make_background_flush_req 64 4 ⟨9, 0, ⟨10, 2⟩, false, false⟩ =
      (some (FlushReqM.flushBulk
        (⟨9, 0, ⟨10, 2⟩, false, false⟩ : SliceWriterM).internal_seq
        (⟨9, 0, ⟨10, 2⟩, false, false⟩ : SliceWriterM).slice_buffer.length),
        ⟨9, 0, ⟨10, 2⟩, false, false⟩) :=
  (make_background_flush_req_spec 64 4 ⟨9, 0, ⟨10, 2⟩, false, false⟩
      (by decide) (by decide)).2.2.2.1 rfl rfl (by decide) (by decide)

/-- One pool transition preserves the conservation invariant: the free
queue and the outstanding tokens together always hold exactly the pages
`0, …, total-1`. -/
lemma poolStep_inv {total : Nat} {st : PoolState}
    (h : (st.freeQueue : Multiset Nat) + st.outstanding = Multiset.range total)
    (op : PoolOp) :
    ((poolStep st op).freeQueue : Multiset Nat) + (poolStep st op).outstanding =
      Multiset.range total := by
  cases op with
  | tryAcquirePage =>
    cases hq : st.freeQueue with
    | nil => simpa [poolStep, hq] using h
    | cons id rest =>
      rw [hq] at h
      rw [← Multiset.cons_coe, Multiset.cons_add] at h
      simpa [poolStep, hq, Multiset.add_cons] using h
  | acquirePage =>
    cases hq : st.freeQueue with
    | nil => simpa [poolStep, hq] using h
    | cons id rest =>
      rw [hq] at h
      rw [← Multiset.cons_coe, Multiset.cons_add] at h
      simpa [poolStep, hq, Multiset.add_cons] using h
  | dropPage id =>
    by_cases hmem : id ∈ st.outstanding
    · simp only [poolStep, if_pos hmem]
      have hap : ((st.freeQueue ++ [id] : List Nat) : Multiset Nat) =
          (st.freeQueue : Multiset Nat) + {id} := by
        rw [← Multiset.coe_singleton, Multiset.coe_add]
      rw [hap, add_assoc, Multiset.singleton_add, Multiset.cons_erase hmem, h]
    · simp only [poolStep, if_neg hmem]
      exact h

/-- The conservation invariant holds after any event sequence. -/
lemma poolRun_inv (total : Nat) :
    ∀ (ops : List PoolOp) (st : PoolState),
      (st.freeQueue : Multiset Nat) + st.outstanding = Multiset.range total →
      ((ops.foldl poolStep st).freeQueue : Multiset Nat) +
          (ops.foldl poolStep st).outstanding = Multiset.range total
  | [], _, h => h
  | op :: rest, st, h => by
    rw [List.foldl_cons]
    exact poolRun_inv total rest (poolStep st op) (poolStep_inv h op)

/-- C2: for a pool built with `page_size > 0`, `capacity % page_size = 0`
and `capacity > page_size`, after any sequence of `try_acquire_page` /
`acquire_page` calls and page drops, `remain_page_cnt` plus the number of
outstanding page tokens equals `total_page_cnt = capacity / page_size`,
and the pages held free or outstanding are exactly
`{0, …, capacity/page_size - 1}`. -/
theorem disk_pool_page_conservation (page_size capacity : Nat)
    (h1 : 0 < page_size) (h2 : capacity % page_size = 0)
    (h3 : page_size < capacity) (ops : List PoolOp) :
    (poolRun (capacity / page_size) ops).remain_page_cnt +
        Multiset.card (poolRun (capacity / page_size) ops).outstanding =
      capacity / page_size ∧
    ((poolRun (capacity / page_size) ops).freeQueue : Multiset Nat) +
        (poolRun (capacity / page_size) ops).outstanding =
      Multiset.range (capacity / page_size) := by
  have hinv := poolRun_inv (capacity / page_size) ops
    (PoolState.init (capacity / page_size))
    (by simp only [PoolState.init, add_zero]; exact Multiset.coe_range _)
  refine ⟨?_, hinv⟩
  have hcard := congrArg Multiset.card hinv
  simpa [PoolState.remain_page_cnt, poolRun] using hcard

/-- C2 witness: a two-page pool (`page_size = 1`, `capacity = 2`) after an
acquire and a drop. -/
theorem disk_pool_page_conservation_witness :
    (poolRun (2 / 1) [PoolOp.acquirePage, PoolOp.dropPage 0]).remain_page_cnt +
        Multiset.card
          (poolRun (2 / 1) [PoolOp.acquirePage, PoolOp.dropPage 0]).outstanding =
      2 / 1 ∧
    ((poolRun (2 / 1) [PoolOp.acquirePage, PoolOp.dropPage 0]).freeQueue :
        Multiset Nat) +
        (poolRun (2 / 1) [PoolOp.acquirePage, PoolOp.dropPage 0]).outstanding =
      Multiset.range (2 / 1) :=
  disk_pool_page_conservation 1 2 (by decide) (by decide) (by decide)
    [PoolOp.acquirePage, PoolOp.dropPage 0]

/-- `process_ctx` never touches the stored file length. -/
lemma process_ctx_length (early : Bool) (fw : FileWriterM) (l : ChunkWriteCtx) :
    (fw.process_ctx early l).2.length = fw.length := by
  simp only [FileWriterM.process_ctx]
  split <;> rfl

/-- `write_slice` never touches the stored file length. -/
lemma write_slice_length (fw : FileWriterM) (seq : Nat) (l : ChunkWriteCtx) :
    (fw.write_slice seq l).2.length = fw.length := by
  simp only [FileWriterM.write_slice]
  split <;> rfl

/-- `enqueue_background_req` never touches the stored file length. -/
lemma enqueue_background_req_length (cs bs : Nat) (fw : FileWriterM) (seq ci : Nat) :
    (fw.enqueue_background_req cs bs seq ci).length = fw.length := by
  simp only [FileWriterM.enqueue_background_req]
  split
  · rfl
  · split <;> rfl

/-- The slice-location fold of `write` preserves the length. -/
lemma foldl_pairs_length (early : Bool) :
    ∀ (ls : List ChunkWriteCtx) (acc : List (Nat × ChunkWriteCtx) × FileWriterM),
      ((ls.foldl
          (fun acc l =>
            (acc.1 ++ [((acc.2.process_ctx early l).1, l)], (acc.2.process_ctx early l).2))
          acc).2).length = acc.2.length
  | [], _ => rfl
  | l :: rest, acc => by
    rw [List.foldl_cons, foldl_pairs_length early rest _]
    exact process_ctx_length early acc.2 l

/-- The slice-write fold of `write` preserves the length. -/
lemma foldl_write_length :
    ∀ (ps : List (Nat × ChunkWriteCtx)) (acc : Nat × FileWriterM),
      ((ps.foldl
          (fun acc p =>
            (acc.1 + (acc.2.write_slice p.1 p.2).1, (acc.2.write_slice p.1 p.2).2))
          acc).2).length = acc.2.length
  | [], _ => rfl
  | p :: rest, acc => by
    rw [List.foldl_cons, foldl_write_length rest _]
    exact write_slice_length acc.2 p.1 p.2

/-- The flush-request fold of `write` preserves the length. -/
lemma foldl_enqueue_length (cs bs : Nat) :
    ∀ (ps : List (Nat × ChunkWriteCtx)) (s : FileWriterM),
      (ps.foldl (fun s p => s.enqueue_background_req cs bs p.1 p.2.chunk_idx) s).length =
        s.length
  | [], _ => rfl
  | p :: rest, s => by
    rw [List.foldl_cons, foldl_enqueue_length cs bs rest _]
    exact enqueue_background_req_length cs bs s p.1 p.2.chunk_idx

/-- A fresh `FileWriter` over an empty file. -/
def fw0 : FileWriterM := ⟨0, WriterPattern.init, [], [], 0⟩

/-- C4 counterexample: a successful empty write (`Ok(0)`) at an offset
beyond the stored length leaves the length unchanged, whereas
`max(old, offset + bytes_written) = max(0, 5 + 0) = 5`; the early return
for empty data skips the length update. -/
theorem write_length_counterexample :
    ¬ ((FileWriterM.write 64 16 false fw0 5 0).2.length =
        max fw0.length (5 + (FileWriterM.write 64 16 false fw0 5 0).1)) := by
  decide

/-- One write never decreases the stored length. -/
lemma write_length_mono (cs bs : Nat) (early : Bool) (g : FileWriterM)
    (offset dl : Nat) :
    g.length ≤ (FileWriterM.write cs bs early g offset dl).2.length := by
  by_cases h0 : dl = 0
  · simp [FileWriterM.write, h0]
  · simp only [FileWriterM.write, if_neg h0]
    split
    · next hlt =>
      simp only [foldl_enqueue_length, foldl_write_length, foldl_pairs_length] at hlt
      exact Nat.le_of_lt hlt
    · simp only [foldl_enqueue_length, foldl_write_length, foldl_pairs_length]
      exact Nat.le_refl _

/-- Any write sequence leaves the stored length no smaller. -/
lemma replayWrites_length_mono (cs bs : Nat) (early : Bool) :
    ∀ (writes : List (Nat × Nat)) (g : FileWriterM),
      g.length ≤ (g.replayWrites cs bs early writes).length
  | [], _ => Nat.le_refl _
  | w :: rest, g => by
    rw [FileWriterM.replayWrites, List.foldl_cons]
    exact Nat.le_trans (write_length_mono cs bs early g w.1 w.2)
      (replayWrites_length_mono cs bs early rest _)

/-- C4 (amended): after a successful `write(offset, data)` with nonempty
data that wrote `bytes_written` bytes, the stored length equals
`max(old, offset + bytes_written)`; and over any sequence of writes the
stored length never decreases.  (For an empty write the length update is
skipped entirely; see the counterexample.) -/
theorem write_length_spec (chunk_size block_size : Nat) (early : Bool)
    (fw : FileWriterM) (offset data_len : Nat) (h : 1 ≤ data_len) :
    (FileWriterM.write chunk_size block_size early fw offset data_len).2.length =
      max fw.length
        (offset + (FileWriterM.write chunk_size block_size early fw offset data_len).1) ∧
    ∀ (writes : List (Nat × Nat)) (g : FileWriterM),
      g.length ≤ (g.replayWrites chunk_size block_size early writes).length := by
  constructor
  · have hne : ¬ data_len = 0 := by omega
    simp only [FileWriterM.write, if_neg hne]
    split
    · next hlt =>
      simp only [foldl_enqueue_length, foldl_write_length, foldl_pairs_length] at hlt
      simp only []
      omega
    · next hge =>
      simp only [foldl_enqueue_length, foldl_write_length, foldl_pairs_length] at hge ⊢
      omega
  · exact fun writes g => replayWrites_length_mono chunk_size block_size early writes g

/-- C4 witness: a 5-byte write at offset 3 on an empty file publishes
length `max(0, 3 + 5) = 8`. -/
theorem write_length_spec_witness :
    (FileWriterM.write 64 16 false fw0 3 5).2.length =
      max fw0.length (3 + (FileWriterM.write 64 16 false fw0 3 5).1) :=
  (write_length_spec 64 16 false fw0 3 5 (by decide)).1

/-- Unfolding lemma: the empty iteration. -/
lemma locateChunkGo_zero (cs offset idx chunk_pos buf left : Nat) :
    locateChunkGo cs offset 0 idx chunk_pos buf left = [] := rfl

/-- Unfolding lemma: one loop iteration. -/
lemma locateChunkGo_succ (cs offset k idx chunk_pos buf left : Nat) :
    locateChunkGo cs offset (k + 1) idx chunk_pos buf left =
      { file_offset := offset + buf, chunk_idx := idx, chunk_offset := chunk_pos,
        need_write_len := min (cs - chunk_pos) left, buf_start_at := buf } ::
        locateChunkGo cs offset k (idx + 1)
          (cal_chunk_offset (chunk_pos + min (cs - chunk_pos) left) cs)
          (buf + min (cs - chunk_pos) left) (left - min (cs - chunk_pos) left) := rfl

/-- Introduction rule for `chunksCover` on a cons cell. -/
lemma chunksCover_cons (base : Nat) (c : ChunkWriteCtx) (rest : List ChunkWriteCtx)
    (s e : Nat) (h1 : c.file_offset = s) (h2 : c.buf_start_at = s - base)
    (h3 : c.need_write_len ≠ 0)
    (h4 : chunksCover base rest (s + c.need_write_len) e = true) :
    chunksCover base (c :: rest) s e = true := by
  simp [chunksCover, h1, h2, h3, h4]

/-- Division helper: `(idx * cs + r) / cs = idx` when `r < cs`. -/
lemma mul_add_div_of_lt {cs : Nat} (idx r : Nat) (hcs : 0 < cs) (hr : r < cs) :
    (idx * cs + r) / cs = idx := by
  rw [Nat.mul_comm idx cs, Nat.add_comm, Nat.add_mul_div_left _ _ hcs,
    Nat.div_eq_of_lt hr, Nat.zero_add]

/-- Loop invariant of `locate_chunk`: starting inside chunk `idx` at
chunk-local position `chunk_pos` with `left` bytes remaining spread over
exactly `k` chunks, the produced contexts cover
`[offset+buf, offset+buf+left)` consecutively, fit their chunks, and carry
`chunk_idx = file_offset / cs`. -/
lemma locateChunkGo_spec (cs offset : Nat) (hcs : 0 < cs) :
    ∀ (k idx chunk_pos buf left : Nat),
      chunk_pos < cs → 1 ≤ left →
      (k - 1) * cs < chunk_pos + left →
      chunk_pos + left ≤ k * cs →
      offset + buf = idx * cs + chunk_pos →
      chunksCover offset (locateChunkGo cs offset k idx chunk_pos buf left)
          (offset + buf) (offset + buf + left) = true ∧
        ∀ c ∈ locateChunkGo cs offset k idx chunk_pos buf left,
          c.chunk_offset + c.need_write_len ≤ cs ∧
            c.chunk_idx = c.file_offset / cs := by
  intro k
  induction k with
  | zero =>
    intro idx chunk_pos buf left h1 h2 h3 h4 h5
    rw [Nat.zero_mul] at h4
    exact absurd h4 (by omega)
  | succ k ih =>
    intro idx chunk_pos buf left h1 h2 h3 h4 h5
    simp only [Nat.add_sub_cancel] at h3
    have hsm : (k + 1) * cs = k * cs + cs := Nat.succ_mul k cs
    have h4' : chunk_pos + left ≤ k * cs + cs := by omega
    by_cases hk : k = 0
    · subst hk
      rw [Nat.zero_mul] at h3
      rw [Nat.zero_mul] at h4'
      have hmax : min (cs - chunk_pos) left = left := by omega
      rw [locateChunkGo_succ, locateChunkGo_zero, hmax]
      constructor
      · refine chunksCover_cons offset _ _ _ _ rfl
          (show buf = offset + buf - offset by omega)
          (show left ≠ 0 by omega) ?_
        simp [chunksCover]
      · intro c hc
        rw [List.mem_singleton] at hc
        subst hc
        refine ⟨show chunk_pos + left ≤ cs by omega, ?_⟩
        have hdiv : (offset + buf) / cs = idx := by
          rw [h5]
          exact mul_add_div_of_lt idx chunk_pos hcs h1
        exact hdiv.symm
    · have hk1 : 1 ≤ k := by omega
      have hcsk : cs ≤ k * cs := Nat.le_mul_of_pos_left cs hk1
      have hlt : cs - chunk_pos < left := by omega
      have hmax : min (cs - chunk_pos) left = cs - chunk_pos := by omega
      have hcpz : cal_chunk_offset (chunk_pos + (cs - chunk_pos)) cs = 0 := by
        rw [cal_chunk_offset]
        have hcp : chunk_pos + (cs - chunk_pos) = cs := by omega
        rw [hcp, Nat.mod_self]
      have hsub : (k - 1) * cs = k * cs - cs := by
        rw [Nat.sub_mul, Nat.one_mul]
      have hsmi : (idx + 1) * cs = idx * cs + cs := Nat.succ_mul idx cs
      have ihappl := ih (idx + 1) 0 (buf + (cs - chunk_pos)) (left - (cs - chunk_pos))
        hcs (by omega) (by rw [hsub]; omega) (by omega) (by omega)
      rw [locateChunkGo_succ, hmax, hcpz]
      constructor
      · refine chunksCover_cons offset _ _ _ _ rfl
          (show buf = offset + buf - offset by omega)
          (show cs - chunk_pos ≠ 0 by omega) ?_
        have e1 : offset + (buf + (cs - chunk_pos)) = offset + buf + (cs - chunk_pos) := by
          omega
        have e2 : offset + buf + (cs - chunk_pos) + (left - (cs - chunk_pos)) =
            offset + buf + left := by omega
        have h := ihappl.1
        rw [e1, e2] at h
        exact h
      · intro c hc
        rcases List.mem_cons.mp hc with hceq | hcmem
        · subst hceq
          refine ⟨show chunk_pos + (cs - chunk_pos) ≤ cs by omega, ?_⟩
          have hdiv : (offset + buf) / cs = idx := by
            rw [h5]
            exact mul_add_div_of_lt idx chunk_pos hcs h1
          exact hdiv.symm
        · exact ihappl.2 c hcmem

/-- C3: for `chunk_size > 0` and a write of `n ≥ 1` bytes at any offset,
`locate_chunk` produces contexts whose `(file_offset, need_write_len)`
ranges exactly partition `[offset, offset+n)` in order with `buf_start_at`
the running sum of preceding lengths, each fitting its chunk
(`chunk_offset + need_write_len ≤ chunk_size`) and carrying
`chunk_idx = file_offset / chunk_size`; and a write at `chunk_size - 1` of
length `N > 1` with `N - 1 ≤ chunk_size` splits into exactly two contexts
with lengths `1` and `N - 1`. -/
theorem locate_chunk_spec :
    (∀ (cs offset n : Nat), 0 < cs → 1 ≤ n →
      chunksCover offset (locate_chunk cs offset n) offset (offset + n) = true ∧
      ∀ c ∈ locate_chunk cs offset n,
        c.chunk_offset + c.need_write_len ≤ cs ∧
          c.chunk_idx = c.file_offset / cs) ∧
    (∀ (cs N : Nat), 0 < cs → 1 < N → N - 1 ≤ cs →
      locate_chunk cs (cs - 1) N =
        [{ file_offset := cs - 1, chunk_idx := 0, chunk_offset := cs - 1,
           need_write_len := 1, buf_start_at := 0 },
         { file_offset := cs, chunk_idx := 1, chunk_offset := 0,
           need_write_len := N - 1, buf_start_at := 1 }]) := by
  constructor
  · intro cs offset n hcs hn
    simp only [locate_chunk, cal_chunk_idx, cal_chunk_offset]
    have hdm0 := Nat.div_add_mod offset cs
    have hsplit : offset + n - 1 = cs * (offset / cs) + (offset % cs + n - 1) := by
      omega
    have he : (offset + n - 1) / cs = offset / cs + (offset % cs + n - 1) / cs := by
      rw [hsplit, Nat.mul_add_div hcs]
    have hk : (offset + n - 1) / cs + 1 - offset / cs =
        (offset % cs + n - 1) / cs + 1 := by
      rw [he]
      generalize offset / cs = A
      generalize (offset % cs + n - 1) / cs = B
      omega
    rw [hk]
    have hq1 : (offset % cs + n - 1) / cs * cs ≤ offset % cs + n - 1 :=
      Nat.div_mul_le_self _ _
    have hdm2 := Nat.div_add_mod (offset % cs + n - 1) cs
    rw [Nat.mul_comm cs ((offset % cs + n - 1) / cs)] at hdm2
    have hm2 : (offset % cs + n - 1) % cs < cs := Nat.mod_lt _ hcs
    have hmod : offset % cs < cs := Nat.mod_lt _ hcs
    have hsm : ((offset % cs + n - 1) / cs + 1) * cs =
        (offset % cs + n - 1) / cs * cs + cs := Nat.succ_mul _ _
    have hdm0' : offset / cs * cs + offset % cs = offset := by
      rw [Nat.mul_comm]
      exact hdm0
    have happ := locateChunkGo_spec cs offset hcs ((offset % cs + n - 1) / cs + 1)
      (offset / cs) (offset % cs) 0 n hmod hn
      (by simp only [Nat.add_sub_cancel]; omega)
      (by omega)
      (by omega)
    constructor
    · have h := happ.1
      simpa using h
    · exact happ.2
  · intro cs N hcs hN hNle
    have h1 : cal_chunk_idx (cs - 1) cs = 0 := Nat.div_eq_of_lt (by omega)
    have h3 : cal_chunk_idx (cs - 1 + N - 1) cs = 1 := by
      rw [cal_chunk_idx]
      have h2 : cs - 1 + N - 1 = cs * 1 + (N - 2) := by omega
      rw [h2, Nat.mul_add_div hcs, Nat.div_eq_of_lt (by omega : N - 2 < cs)]
    have hco : cal_chunk_offset (cs - 1) cs = cs - 1 := by
      rw [cal_chunk_offset]
      exact Nat.mod_eq_of_lt (by omega)
    simp only [locate_chunk, h1, h3, hco]
    rw [show (1 + 1 - 0 : Nat) = 0 + 1 + 1 from rfl]
    rw [locateChunkGo_succ]
    rw [show cs - (cs - 1) = 1 from by omega]
    rw [show min 1 N = 1 from by omega]
    rw [show cs - 1 + 1 = cs from by omega]
    rw [show cal_chunk_offset cs cs = 0 from by rw [cal_chunk_offset]; exact Nat.mod_self cs]
    rw [locateChunkGo_succ]
    rw [locateChunkGo_zero]
    rw [Nat.sub_zero]
    rw [show min cs (N - 1) = N - 1 from by omega]
    simp only [List.cons.injEq, ChunkWriteCtx.mk.injEq, and_true, true_and]
    omega

/-- C3 witness: a 10-byte write at offset 3 with chunk size 4 partitions
`[3, 13)`, and a 5-byte write at offset `4 - 1` splits `1 / 4`. -/
theorem locate_chunk_spec_witness :
    chunksCover 3 (locate_chunk 4 3 10) 3 (3 + 10) = true ∧
      locate_chunk 4 (4 - 1) 5 =
        [{ file_offset := 4 - 1, chunk_idx := 0, chunk_offset := 4 - 1,
           need_write_len := 1, buf_start_at := 0 },
         { file_offset := 4, chunk_idx := 1, chunk_offset := 0,
           need_write_len := 5 - 1, buf_start_at := 1 }] :=
  ⟨(locate_chunk_spec.1 4 3 10 (by decide) (by decide)).1,
    locate_chunk_spec.2 4 5 (by decide) (by decide) (by decide)⟩

/-- C8 witness: the renaming on the `.config` node. -/
theorem add_prefix_spec_witness :
    add_prefix_name CONFIG_INODE_NAME = ".kfs" ++ CONFIG_INODE_NAME :=
  add_prefix_spec.2 CONFIG_INODE_NAME (by decide)

end Kiseki

